import Mathlib

/-!
# Verification of the Techmeme digest pipeline (`index.js`)

This file gives a shallow embedding of the pipeline implemented in
`index.js` of the `techmeme-2-slack` repository:

* the headline extraction from fetched HTML (`fetchTechmemeContent`,
  primary `.ii` selector with a `strong`-tag fallback),
* the post-processing of the model's raw output performed in
  `summarizeWithGemini` (asterisk collapsing followed by URL rewriting),
* the Slack message construction in `postToSlack`, and
* the module-level environment gate and the orchestration in `main`,
  modelled as an event trace.

HTML parsing itself (cheerio) is abstracted: a document is modelled by
the lists of elements that the two selectors used in the source would
return, in document order, each carrying exactly the data the source
reads off them (text content, href of the first embedded link, and for
the fallback the presence of an own embedded link and the nearest
ancestor link's href).
-/

namespace Techmeme

/-! ## Data model -/

/-- A headline item, `{ text, url }`, as pushed onto `items` in
`fetchTechmemeContent`. -/
structure HeadlineItem where
  text : String
  url : String
  deriving DecidableEq, Repr

/-- An element matched by the primary selector `$('.ii')`.
`text` is the raw text content (`$el.text()`, before `.trim()`);
`href` is `$el.find('a').first().attr('href')` — `none` when there is
no embedded link or the link has no `href` attribute. -/
structure IiElement where
  text : String
  href : Option String
  deriving DecidableEq, Repr

/-- An element matched by the fallback selector `$('strong')`.
`text` is the raw text content; `hasOwnLink` records whether
`$el.find('a').first().length` is non-zero; `ownHref` is the first
embedded link's `href` attribute (when it exists); `ancestorHref` is
`$el.closest('a').attr('href')`. -/
structure StrongElement where
  text : String
  hasOwnLink : Bool
  ownHref : Option String
  ancestorHref : Option String
  deriving DecidableEq, Repr

/-- Abstraction of the parsed HTML document: the elements the two
selectors return, in document order. -/
structure HtmlDoc where
  iiElements : List IiElement
  strongElements : List StrongElement
  deriving DecidableEq, Repr

/-! ## JavaScript string primitives

`String.prototype.trim` and `String.prototype.startsWith` are modelled
directly (Lean's built-in `String.trim`/`String.startsWith` are not
used: they differ slightly in their whitespace set and are defined
through `Substring`, which blocks evaluation inside proofs). -/

/-- The ECMAScript `\s` / WhiteSpace ∪ LineTerminator character class
(whitespace as the regex engine and `trim` see it). -/
def jsWhitespace (c : Char) : Bool :=
  c = ' ' || c = '\t' || c = '\n' || c = '\r' ||
  c.val = 11 || c.val = 12 ||
  c.val = 0xa0 || c.val = 0x1680 ||
  (0x2000 ≤ c.val && c.val ≤ 0x200a) ||
  c.val = 0x2028 || c.val = 0x2029 || c.val = 0x202f ||
  c.val = 0x205f || c.val = 0x3000 || c.val = 0xfeff

/-- `String.prototype.trim`: strip leading and trailing whitespace. -/
def jsTrim (s : String) : String :=
  ⟨((s.data.dropWhile jsWhitespace).reverse.dropWhile jsWhitespace).reverse⟩

/-- `String.prototype.startsWith`. -/
def jsStartsWith (s p : String) : Bool :=
  decide (s.data.take p.data.length = p.data)

/-! ## Headline extraction (`fetchTechmemeContent`, index.js lines 79–152) -/

/-- One iteration of the `$('.ii').each` loop (index.js lines 94–108):
skip when 15 items are already collected; otherwise trim the text, read
the first link's href, and push the item when both are truthy (non-empty
in JS), making a root-relative URL absolute. -/
def primaryStep (items : List HeadlineItem) (el : IiElement) : List HeadlineItem :=
  if items.length ≥ 15 then items
  else
    let text := (jsTrim el.text)
    match el.href with
    | none => items
    | some url =>
      if text ≠ "" ∧ url ≠ "" then
        items ++ [{ text := text
                    url := if jsStartsWith url "/" then "https://techmeme.com" ++ url else url }]
      else items

/-- The link resolution of the fallback loop (index.js line 120):
`$el.find('a').first().length ? $el.find('a').first() : $el.closest('a')`,
then `.attr('href')`. -/
def strongHref (el : StrongElement) : Option String :=
  if el.hasOwnLink then el.ownHref else el.ancestorHref

/-- One iteration of the fallback `$('strong').each` loop (index.js
lines 116–129): skip when 15 items are collected; accept when the
trimmed text is longer than 20 characters and the resolved href is
truthy, making a root-relative URL absolute. -/
def fallbackStep (items : List HeadlineItem) (el : StrongElement) : List HeadlineItem :=
  if items.length ≥ 15 then items
  else
    let text := (jsTrim el.text)
    match strongHref el with
    | none => items
    | some url =>
      if text.length > 20 ∧ url ≠ "" then
        items ++ [{ text := text
                    url := if jsStartsWith url "/" then "https://techmeme.com" ++ url else url }]
      else items

/-- The items the primary strategy collects on its own. -/
def primaryItems (doc : HtmlDoc) : List HeadlineItem :=
  List.foldl primaryStep [] doc.iiElements

/-- The items the fallback strategy collects when started from an empty
item list. -/
def fallbackItems (doc : HtmlDoc) : List HeadlineItem :=
  List.foldl fallbackStep [] doc.strongElements

/-- `fetchTechmemeContent` (index.js lines 79–152), restricted to a
successfully fetched and parsed document: run the primary strategy; if
it produced zero items, continue with the fallback strategy on the same
(empty) item list. -/
def fetchTechmemeContent (doc : HtmlDoc) : List HeadlineItem :=
  let items := List.foldl primaryStep [] doc.iiElements
  if items.length = 0 then List.foldl fallbackStep items doc.strongElements
  else items

/-- Characterization of one primary acceptance: the item
`primaryStep` pushes for an element, if any. -/
def acceptIi (el : IiElement) : Option HeadlineItem :=
  match el.href with
  | none => none
  | some url =>
    if (jsTrim el.text) ≠ "" ∧ url ≠ "" then
      some { text := (jsTrim el.text)
             url := if jsStartsWith url "/" then "https://techmeme.com" ++ url else url }
    else none

/-- Characterization of one fallback acceptance: the item
`fallbackStep` pushes for an element, if any. -/
def acceptStrong (el : StrongElement) : Option HeadlineItem :=
  match strongHref el with
  | none => none
  | some url =>
    if (jsTrim el.text).length > 20 ∧ url ≠ "" then
      some { text := (jsTrim el.text)
             url := if jsStartsWith url "/" then "https://techmeme.com" ++ url else url }
    else none

/-- URL normalization as the spec words it: a root-relative href gets
the fixed origin prepended, any other href is kept unchanged.
(This mirrors the inline `if (url.startsWith('/'))` of both loops and
is compared against them in the claims.) -/
def specNormalizeUrl (href : String) : String :=
  if jsStartsWith href "/" then "https://techmeme.com" ++ href else href

/-- A URL is absolute when it carries the scheme-and-host form the
extractor is supposed to guarantee (http or https scheme). -/
def isAbsoluteUri (s : String) : Bool :=
  decide (s.data.take 7 = "http://".data) || decide (s.data.take 8 = "https://".data)

/-! ## Post-processing of the model output
(`summarizeWithGemini`, index.js lines 209–220)

The three `String.prototype.replace` calls with global regexes are
modelled as left-to-right scans over the character list: at each
position the pattern is tried; on a match the replacement is emitted
and the scan resumes after the matched substring, otherwise the
character is copied. -/

/-- `text.replace(/\*\*/g, '*')` (index.js line 210). -/
def collapseDouble : List Char → List Char
  | [] => []
  | [c] => [c]
  | c1 :: c2 :: rest =>
    if c1 = '*' ∧ c2 = '*' then '*' :: collapseDouble rest
    else c1 :: collapseDouble (c2 :: rest)

/-- `text.replace(/\*\*\*/g, '*')` (index.js line 213). -/
def collapseTriple : List Char → List Char
  | [] => []
  | [c] => [c]
  | [c1, c2] => [c1, c2]
  | c1 :: c2 :: c3 :: rest =>
    if c1 = '*' ∧ c2 = '*' ∧ c3 = '*' then '*' :: collapseTriple rest
    else c1 :: collapseTriple (c2 :: c3 :: rest)

/-- A character that ends a URL match: the negated class of
`[^\s\)\]]` in the regex `https?:\/\/[^\s\)\]]+`. -/
def urlStop (c : Char) : Bool :=
  jsWhitespace c || c = ')' || c = ']'

/-- Greedy match of `[^\s\)\]]+` minus the "at least one" requirement:
split off the maximal run of non-stop characters. -/
def takeUrlBody : List Char → List Char × List Char
  | [] => ([], [])
  | c :: rest =>
    if urlStop c then ([], c :: rest)
    else
      let p := takeUrlBody rest
      (c :: p.1, p.2)

/-- Match of `https?:\/\/[^\s\)\]]+` at the start of the list,
returning the matched characters and the remainder. Mirrors the regex
with its backtracking: `https` is preferred, `http` tried otherwise
(the two prefixes are mutually exclusive), and at least one body
character is required. -/
def matchUrlAt (l : List Char) : Option (List Char × List Char) :=
  if l.take 8 = "https://".data then
    match takeUrlBody (l.drop 8) with
    | ([], _) => none
    | (body, rest2) => some ("https://".data ++ body, rest2)
  else if l.take 7 = "http://".data then
    match takeUrlBody (l.drop 7) with
    | ([], _) => none
    | (body, rest2) => some ("http://".data ++ body, rest2)
  else none

/-- `text.replace(/https?:\/\/[^\s\)\]]+/g, url => `<${url}|read more>`)`
(index.js lines 218–220), written with explicit fuel so that the scan
is structurally recursive; `replaceUrls` supplies sufficient fuel. -/
def replaceUrlsAux : Nat → List Char → List Char
  | 0, l => l
  | _ + 1, [] => []
  | fuel + 1, c :: rest =>
    match matchUrlAt (c :: rest) with
    | some (url, rest2) => '<' :: (url ++ "|read more>".data ++ replaceUrlsAux fuel rest2)
    | none => c :: replaceUrlsAux fuel rest

/-- The URL-rewriting pass over a character list. -/
def replaceUrls (l : List Char) : List Char :=
  replaceUrlsAux l.length l

/-- The whole post-processing of `summarizeWithGemini` (index.js lines
209–220): collapse `**`, then collapse `***`, then rewrite URLs. -/
def postProcess (l : List Char) : List Char :=
  replaceUrls (collapseTriple (collapseDouble l))

/-- String-level wrapper for the post-processing. -/
def summarizePost (s : String) : String :=
  ⟨postProcess s.data⟩

/-- `true` when the list contains two consecutive `*` characters
(a remaining double emphasis delimiter). -/
def hasDoubleStar : List Char → Bool
  | [] => false
  | [_] => false
  | c1 :: c2 :: rest => (c1 = '*' && c2 = '*') || hasDoubleStar (c2 :: rest)

/-- `true` when the list contains three consecutive `*` characters. -/
def hasTripleStar : List Char → Bool
  | [] => false
  | [_] => false
  | [_, _] => false
  | c1 :: c2 :: c3 :: rest =>
    (c1 = '*' && c2 = '*' && c3 = '*') || hasTripleStar (c2 :: c3 :: rest)

/-- Naive substring test, used to express that some text still occurs
(or no longer occurs) in the post-processed output. -/
def containsSeg (l seg : List Char) : Bool :=
  match l with
  | [] => decide (seg = [])
  | _ :: rest => decide (l.take seg.length = seg) || containsSeg rest seg

/-! ## Slack publisher (`postToSlack`, index.js lines 243–277)

The real current date (`new Date().toLocaleDateString('en-US', ...)`)
is an ambient input of the process; it is modelled as the parameter
`formattedDate`. -/

/-- The message `slackClient.chat.postMessage` is called with. -/
structure SlackMessage where
  channel : String
  text : String
  mrkdwn : Bool
  deriving DecidableEq, Repr

/-- The message built by `postToSlack`: header with fixed label, the
formatted date and the newspaper emoji, a blank line, then the body,
with Slack markdown enabled. -/
def postToSlackMessage (channelId formattedDate text : String) : SlackMessage :=
  { channel := channelId
    text := "*Techmeme Top 10 Digest - " ++ formattedDate ++ "* :newspaper:\n\n" ++ text
    mrkdwn := true }

/-! ## Environment gate and orchestration (index.js lines 24–58, 290–343)

The module top level and `main` are modelled as a function from the
process environment plus the external responses (the parsed HTML
document, the model's raw output, the formatted current date) to the
sequence of observable events, in program order. -/

/-- The relevant environment variables (`process.env.*`), each absent
(`none`) or present with a string value. -/
structure Env where
  GEMINI_API_KEY : Option String
  GEMINI_MODEL : Option String
  SLACK_BOT_TOKEN : Option String
  SLACK_CHANNEL_ID : Option String
  deriving DecidableEq, Repr

/-- JavaScript truthiness of an optional string: `undefined` and the
empty string are falsy. -/
def truthy : Option String → Bool
  | none => false
  | some s => s != ""

/-- JavaScript `a || 'default'` on an optional string (index.js line
28, the `GEMINI_MODEL` fallback). -/
def orDefault (o : Option String) (d : String) : String :=
  match o with
  | none => d
  | some s => if s = "" then d else s

/-- The validation condition of the gate: `!GEMINI_API_KEY ||
!SLACK_TOKEN || !SLACK_CHANNEL` negated (index.js line 38). -/
def envOk (env : Env) : Bool :=
  truthy env.GEMINI_API_KEY && truthy env.SLACK_BOT_TOKEN && truthy env.SLACK_CHANNEL_ID

/-- Observable events of one run, in program order. -/
inductive Event where
  | consoleLog (msg : String)
  | consoleError (msg : String)
  | clientInit (which : String)
  | httpGet (url : String)
  | geminiGenerate (model : String) (prompt : String)
  | slackPost (m : SlackMessage)
  | processExit (code : Nat)
  deriving DecidableEq, Repr

/-- The fixed source URL (index.js line 24). -/
def TECHMEME_URL : String := "https://techmeme.com/"

/-- STEP 2 of `main` (index.js lines 308–310): render the items as a
numbered list with a URL line each, joined by blank lines. -/
def formatContent (items : List HeadlineItem) : String :=
  String.intercalate "\n\n"
    (items.enum.map fun p => toString (p.1 + 1) ++ ". " ++ p.2.text ++ "\n   URL: " ++ p.2.url)

/-- The prompt template of `summarizeWithGemini` (index.js lines
175–189), with the rendered content interpolated at the end. -/
def geminiPrompt (content : String) : String :=
  "\n      You are a tech news aggregator. \n      Read the following raw text items extracted from Techmeme.\n      Identify and summarize the top 10 most important news stories.\n      \n      Format the output as a clean, bulleted list suitable for a Slack message.\n      IMPORTANT: Use single asterisks for bold text (e.g., *Title* not **Title**).\n      Keep summaries concise (1-2 sentences).\n      Add an emoji relevant to the news item at the start of each bullet.\n      Use bullet points (• or -) for each item.\n      Add a link to the original article after each summary.\n\n      Raw Content:\n      "
    ++ content ++ "\n    "

/-- The error message raised by `main` when extraction produced no
items, as the catch block reports it (index.js lines 302–304, 333). -/
def emptyResultError : Event :=
  .consoleError "Error details: No items fetched from Techmeme. Cannot proceed."

/-- One run of the module (index.js top level plus `main`), restricted
to a successful HTTP fetch: validate the environment (exiting with
status 1 and the diagnostic block when a required variable is missing,
before any client is constructed), then fetch, extract, summarize and
post, exiting with status 1 when zero items were extracted. -/
def runModule (env : Env) (doc : HtmlDoc) (rawModelOutput : String)
    (formattedDate : String) : List Event :=
  if envOk env = false then
    [ .consoleError "❌ Error: Missing required environment variables!",
      .consoleError "   Please check your .env file and ensure the following are set:",
      .consoleError "   - GEMINI_API_KEY",
      .consoleError "   - SLACK_BOT_TOKEN",
      .consoleError "   - SLACK_CHANNEL_ID",
      .processExit 1 ]
  else
    let model := orDefault env.GEMINI_MODEL "gemini-pro-latest"
    let channel := env.SLACK_CHANNEL_ID.getD ""
    [ .consoleLog "✓ Environment variables validated successfully",
      .clientInit "gemini",
      .clientInit "slack",
      .httpGet TECHMEME_URL ] ++
    (let items := fetchTechmemeContent doc
     if items.length = 0 then
       [ emptyResultError, .processExit 1 ]
     else
       [ .geminiGenerate model (geminiPrompt (formatContent items)),
         .slackPost (postToSlackMessage channel formattedDate (summarizePost rawModelOutput)) ])

/-- Recognizer for message-post events. -/
def isSlackPost : Event → Bool
  | .slackPost _ => true
  | _ => false

/-- Recognizer for the outbound network calls of the run. -/
def isNetworkCall : Event → Bool
  | .httpGet _ => true
  | .geminiGenerate _ _ => true
  | .slackPost _ => true
  | _ => false

end Techmeme

namespace Techmeme

/-! ## Characterization of the extraction folds -/

theorem primaryStep_eq (items : List HeadlineItem) (el : IiElement) :
    primaryStep items el =
      if items.length ≥ 15 then items else items ++ (acceptIi el).toList := by
  unfold primaryStep acceptIi
  by_cases h : items.length ≥ 15
  · simp [h]
  · simp only [h, if_false]
    cases hh : el.href with
    | none => simp
    | some url =>
      by_cases hc : (jsTrim el.text) ≠ "" ∧ url ≠ ""
      · simp [hc]
      · simp [hc]

theorem fallbackStep_eq (items : List HeadlineItem) (el : StrongElement) :
    fallbackStep items el =
      if items.length ≥ 15 then items else items ++ (acceptStrong el).toList := by
  unfold fallbackStep acceptStrong
  by_cases h : items.length ≥ 15
  · simp [h]
  · simp only [h, if_false]
    cases hh : strongHref el with
    | none => simp
    | some url =>
      by_cases hc : (jsTrim el.text).length > 20 ∧ url ≠ ""
      · simp [hc]
      · simp [hc]

theorem foldl_primaryStep :
    ∀ (l : List IiElement) (acc : List HeadlineItem),
      List.foldl primaryStep acc l = acc ++ (l.filterMap acceptIi).take (15 - acc.length) := by
  intro l
  induction l with
  | nil => intro acc; simp
  | cons el rest ih =>
    intro acc
    rw [List.foldl_cons, primaryStep_eq]
    by_cases h : acc.length ≥ 15
    · have h0 : 15 - acc.length = 0 := by omega
      simp [h, h0, ih]
    · rw [if_neg h, ih]
      cases hel : acceptIi el with
      | none => simp [List.filterMap_cons, hel]
      | some item =>
        have h15 : 15 - acc.length = (15 - (acc.length + 1)) + 1 := by omega
        simp [List.filterMap_cons, hel, h15, List.take_succ_cons, List.append_assoc]

theorem foldl_fallbackStep :
    ∀ (l : List StrongElement) (acc : List HeadlineItem),
      List.foldl fallbackStep acc l = acc ++ (l.filterMap acceptStrong).take (15 - acc.length) := by
  intro l
  induction l with
  | nil => intro acc; simp
  | cons el rest ih =>
    intro acc
    rw [List.foldl_cons, fallbackStep_eq]
    by_cases h : acc.length ≥ 15
    · have h0 : 15 - acc.length = 0 := by omega
      simp [h, h0, ih]
    · rw [if_neg h, ih]
      cases hel : acceptStrong el with
      | none => simp [List.filterMap_cons, hel]
      | some item =>
        have h15 : 15 - acc.length = (15 - (acc.length + 1)) + 1 := by omega
        simp [List.filterMap_cons, hel, h15, List.take_succ_cons, List.append_assoc]

theorem primaryItems_eq (doc : HtmlDoc) :
    primaryItems doc = (doc.iiElements.filterMap acceptIi).take 15 := by
  unfold primaryItems
  rw [foldl_primaryStep]
  simp

theorem fallbackItems_eq (doc : HtmlDoc) :
    fallbackItems doc = (doc.strongElements.filterMap acceptStrong).take 15 := by
  unfold fallbackItems
  rw [foldl_fallbackStep]
  simp

theorem fetchTechmemeContent_eq (doc : HtmlDoc) :
    fetchTechmemeContent doc =
      if primaryItems doc = [] then fallbackItems doc else primaryItems doc := by
  unfold fetchTechmemeContent primaryItems fallbackItems
  by_cases h : List.foldl primaryStep [] doc.iiElements = []
  · simp [h]
  · have hlen : (List.foldl primaryStep [] doc.iiElements).length ≠ 0 := by
      simpa [List.length_eq_zero] using h
    simp [h, hlen]

theorem fetch_nil_iff (doc : HtmlDoc) :
    fetchTechmemeContent doc = [] ↔ primaryItems doc = [] ∧ fallbackItems doc = [] := by
  rw [fetchTechmemeContent_eq]
  by_cases h : primaryItems doc = [] <;> simp [h]

theorem acceptIi_some {el : IiElement} {item : HeadlineItem} (h : acceptIi el = some item) :
    ∃ u, el.href = some u ∧ (jsTrim el.text) ≠ "" ∧ u ≠ "" ∧
      item = { text := (jsTrim el.text)
               url := if jsStartsWith u "/" then "https://techmeme.com" ++ u else u } := by
  unfold acceptIi at h
  split at h
  · exact absurd h (by simp)
  · rename_i u hu
    split at h
    · rename_i hc
      exact ⟨u, hu, hc.1, hc.2, (Option.some.inj h).symm⟩
    · exact absurd h (by simp)

theorem acceptStrong_some {el : StrongElement} {item : HeadlineItem}
    (h : acceptStrong el = some item) :
    ∃ u, strongHref el = some u ∧ (jsTrim el.text).length > 20 ∧ u ≠ "" ∧
      item = { text := (jsTrim el.text)
               url := if jsStartsWith u "/" then "https://techmeme.com" ++ u else u } := by
  unfold acceptStrong at h
  split at h
  · exact absurd h (by simp)
  · rename_i u hu
    split at h
    · rename_i hc
      exact ⟨u, hu, hc.1, hc.2, (Option.some.inj h).symm⟩
    · exact absurd h (by simp)

theorem mem_fetch {doc : HtmlDoc} {item : HeadlineItem}
    (h : item ∈ fetchTechmemeContent doc) :
    (∃ el ∈ doc.iiElements, acceptIi el = some item)
    ∨ (∃ el ∈ doc.strongElements, acceptStrong el = some item) := by
  rw [fetchTechmemeContent_eq] at h
  by_cases hp : primaryItems doc = []
  · right
    rw [if_pos hp, fallbackItems_eq] at h
    have := List.mem_of_mem_take h
    exact (List.mem_filterMap.mp this)
  · left
    rw [if_neg hp, primaryItems_eq] at h
    have := List.mem_of_mem_take h
    exact (List.mem_filterMap.mp this)

theorem isAbsoluteUri_origin (u : String) :
    isAbsoluteUri ("https://techmeme.com" ++ u) = true := by
  unfold isAbsoluteUri
  apply Bool.or_eq_true_iff.mpr
  right
  have hdata : ("https://techmeme.com" ++ u).data = "https://techmeme.com".data ++ u.data :=
    String.data_append ..
  rw [hdata]
  rw [List.take_append_of_le_length (by decide)]
  decide

end Techmeme

namespace Techmeme

/-! ## Claims about extraction -/

/-- C2 (counterexample): an accepted element whose href is relative but
not root-relative (`foo.html`) yields an item whose url is the href
unchanged, which is not an absolute URI — extraction does not normalize
it. -/
theorem c2_counterexample :
    fetchTechmemeContent
        { iiElements := [{ text := "Breaking tech news", href := some "foo.html" }]
          strongElements := [] }
      = [{ text := "Breaking tech news", url := "foo.html" }]
    ∧ isAbsoluteUri "foo.html" = false := by
  exact ⟨by decide, by decide⟩

/-- C2 (amended): every item returned by the extractor has an absolute
URI provided every source href is either root-relative (then the fixed
origin is prepended) or already absolute; an href that is relative but
not root-relative is passed through unchanged and stays non-absolute. -/
theorem c2_amended (doc : HtmlDoc)
    (hii : ∀ el ∈ doc.iiElements, ∀ u, el.href = some u →
      jsStartsWith u "/" = true ∨ isAbsoluteUri u = true)
    (hst : ∀ el ∈ doc.strongElements, ∀ u, strongHref el = some u →
      jsStartsWith u "/" = true ∨ isAbsoluteUri u = true) :
    ∀ item ∈ fetchTechmemeContent doc, isAbsoluteUri item.url = true := by
  intro item him
  rcases mem_fetch him with ⟨el, hel, hacc⟩ | ⟨el, hel, hacc⟩
  · obtain ⟨u, hu, -, -, hitem⟩ := acceptIi_some hacc
    subst hitem
    rcases hii el hel u hu with h | h
    · simp only [h, if_true]
      exact isAbsoluteUri_origin u
    · by_cases hs : jsStartsWith u "/" = true
      · simp only [hs, if_true]
        exact isAbsoluteUri_origin u
      · simp only [Bool.not_eq_true] at hs
        simp only [hs, Bool.false_eq_true, if_false]
        exact h
  · obtain ⟨u, hu, -, -, hitem⟩ := acceptStrong_some hacc
    subst hitem
    rcases hst el hel u hu with h | h
    · simp only [h, if_true]
      exact isAbsoluteUri_origin u
    · by_cases hs : jsStartsWith u "/" = true
      · simp only [hs, if_true]
        exact isAbsoluteUri_origin u
      · simp only [Bool.not_eq_true] at hs
        simp only [hs, Bool.false_eq_true, if_false]
        exact h

/-- Witness for C2 (amended) at a document with a root-relative href. -/
theorem c2_amended_witness :
    isAbsoluteUri
      (HeadlineItem.url { text := "A story", url := "https://techmeme.com/a" }) = true :=
  c2_amended
    { iiElements := [{ text := "A story", href := some "/a" }], strongElements := [] }
    (by decide) (by decide)
    { text := "A story", url := "https://techmeme.com/a" } (by decide)

/-- C6: whenever a step of either strategy accepts an element, the
pushed item's url is exactly the spec's normalization of the extracted
href: origin-prepended when the href starts with `/`, unchanged
otherwise. -/
theorem c6_normalization (accP accF : List HeadlineItem) (elP : IiElement)
    (elF : StrongElement) (u v : String)
    (hu : elP.href = some u) (hut : (jsTrim elP.text) ≠ "") (hu0 : u ≠ "")
    (hPlen : accP.length < 15)
    (hv : strongHref elF = some v) (hvt : (jsTrim elF.text).length > 20) (hv0 : v ≠ "")
    (hFlen : accF.length < 15) :
    primaryStep accP elP = accP ++ [{ text := (jsTrim elP.text), url := specNormalizeUrl u }]
    ∧ fallbackStep accF elF = accF ++ [{ text := (jsTrim elF.text), url := specNormalizeUrl v }] := by
  constructor
  · have hnot : ¬ accP.length ≥ 15 := by omega
    unfold primaryStep specNormalizeUrl
    rw [if_neg hnot, hu]
    simp only []
    rw [if_pos ⟨hut, hu0⟩]
  · have hnot : ¬ accF.length ≥ 15 := by omega
    unfold fallbackStep specNormalizeUrl
    rw [if_neg hnot, hv]
    simp only []
    rw [if_pos ⟨hvt, hv0⟩]

/-- Witness for C6 at concrete elements, one root-relative href and one
plain href. -/
theorem c6_normalization_witness :
    primaryStep [] { text := "A headline", href := some "/a" }
      = [{ text := jsTrim "A headline", url := specNormalizeUrl "/a" }]
    ∧ fallbackStep [] { text := "A long enough strong headline", hasOwnLink := false,
                        ownHref := none, ancestorHref := some "b.html" }
      = [{ text := jsTrim "A long enough strong headline", url := specNormalizeUrl "b.html" }] :=
  c6_normalization [] [] { text := "A headline", href := some "/a" }
    { text := "A long enough strong headline", hasOwnLink := false,
      ownHref := none, ancestorHref := some "b.html" }
    "/a" "b.html" rfl (by decide) (by decide) (by decide)
    rfl (by decide) (by decide) (by decide)

/-- C7: when at least one primary-selector element is accepted (non-empty
trimmed text and a non-empty href on its first embedded link), the
extractor returns exactly the accepted primary items, in document order,
capped at 15, each with the element's trimmed text. -/
theorem c7_primary (doc : HtmlDoc)
    (h : ∃ el ∈ doc.iiElements, (jsTrim el.text) ≠ "" ∧ ∃ u, el.href = some u ∧ u ≠ "") :
    fetchTechmemeContent doc = (doc.iiElements.filterMap acceptIi).take 15 := by
  obtain ⟨el, hel, ht, u, hu, hu0⟩ := h
  have hacc : acceptIi el ≠ none := by
    simp [acceptIi, hu, ht, hu0]
  obtain ⟨it, hit⟩ := Option.ne_none_iff_exists'.mp hacc
  have hmem : it ∈ doc.iiElements.filterMap acceptIi :=
    List.mem_filterMap.mpr ⟨el, hel, hit⟩
  have hne : primaryItems doc ≠ [] := by
    rw [primaryItems_eq]
    intro hnil
    rcases List.take_eq_nil_iff.mp hnil with h15 | hfm
    · exact absurd h15 (by decide)
    · rw [hfm] at hmem
      exact absurd hmem (List.not_mem_nil it)
  rw [fetchTechmemeContent_eq, if_neg hne, primaryItems_eq]

/-- Witness for C7 at a three-element document. -/
theorem c7_primary_witness :
    fetchTechmemeContent
        { iiElements := [{ text := " A ", href := some "/a" },
                         { text := "B", href := some "/b" },
                         { text := "C", href := some "http://x/c" }]
          strongElements := [] }
      = (List.filterMap acceptIi
          [{ text := " A ", href := some "/a" },
           { text := "B", href := some "/b" },
           { text := "C", href := some "http://x/c" }]).take 15 :=
  c7_primary _ ⟨{ text := " A ", href := some "/a" }, by decide,
    by decide, "/a", rfl, by decide⟩

/-- C8: when the primary selector matches nothing the fallback strategy
runs and returns exactly the accepted emphasis elements (longer than 20
trimmed characters, resolvable truthy link) in document order capped at
15; and when the primary strategy yielded at least one item the fallback
never runs. -/
theorem c8_fallback (doc : HtmlDoc) :
    (doc.iiElements = [] →
      fetchTechmemeContent doc = (doc.strongElements.filterMap acceptStrong).take 15)
    ∧ (primaryItems doc ≠ [] → fetchTechmemeContent doc = primaryItems doc) := by
  constructor
  · intro h
    have hp : primaryItems doc = [] := by
      rw [primaryItems_eq, h]
      rfl
    rw [fetchTechmemeContent_eq, if_pos hp, fallbackItems_eq]
  · intro h
    rw [fetchTechmemeContent_eq, if_neg h]

/-- Witness for C8: the fallback equation at a document with no primary
matches (note the 20-character cut), and the no-fallback equation at a
document whose primary strategy accepts an item. -/
theorem c8_fallback_witness :
    fetchTechmemeContent
        { iiElements := []
          strongElements := [{ text := "a headline that is long enough", hasOwnLink := true,
                               ownHref := some "/s", ancestorHref := none },
                             { text := "short", hasOwnLink := true,
                               ownHref := some "/t", ancestorHref := none }] }
      = (List.filterMap acceptStrong
          [{ text := "a headline that is long enough", hasOwnLink := true,
             ownHref := some "/s", ancestorHref := none },
           { text := "short", hasOwnLink := true,
             ownHref := some "/t", ancestorHref := none }]).take 15
    ∧ fetchTechmemeContent
        { iiElements := [{ text := "A story", href := some "/a" }]
          strongElements := [{ text := "a headline that is long enough", hasOwnLink := true,
                               ownHref := some "/s", ancestorHref := none }] }
      = primaryItems
          { iiElements := [{ text := "A story", href := some "/a" }]
            strongElements := [{ text := "a headline that is long enough", hasOwnLink := true,
                                 ownHref := some "/s", ancestorHref := none }] } :=
  ⟨(c8_fallback _).1 rfl, (c8_fallback _).2 (by decide)⟩

end Techmeme

namespace Techmeme

/-! ## Claims about the gate and the orchestration -/

/-- The failure trace of the environment gate (index.js lines 38–45). -/
def gateFailureTrace : List Event :=
  [ .consoleError "❌ Error: Missing required environment variables!",
    .consoleError "   Please check your .env file and ensure the following are set:",
    .consoleError "   - GEMINI_API_KEY",
    .consoleError "   - SLACK_BOT_TOKEN",
    .consoleError "   - SLACK_CHANNEL_ID",
    .processExit 1 ]

theorem runModule_gateFailure (env : Env) (doc : HtmlDoc) (raw date : String)
    (h : envOk env = false) :
    runModule env doc raw date = gateFailureTrace := by
  unfold runModule gateFailureTrace
  rw [if_pos h]

theorem runModule_validated (env : Env) (doc : HtmlDoc) (raw date : String)
    (h : envOk env = true) :
    runModule env doc raw date =
      [ .consoleLog "✓ Environment variables validated successfully",
        .clientInit "gemini",
        .clientInit "slack",
        .httpGet TECHMEME_URL ] ++
      (if fetchTechmemeContent doc = [] then
        [ emptyResultError, .processExit 1 ]
      else
        [ .geminiGenerate (orDefault env.GEMINI_MODEL "gemini-pro-latest")
            (geminiPrompt (formatContent (fetchTechmemeContent doc))),
          .slackPost (postToSlackMessage (env.SLACK_CHANNEL_ID.getD "") date
            (summarizePost raw)) ]) := by
  unfold runModule
  rw [if_neg (by simp [h])]
  by_cases hemp : fetchTechmemeContent doc = []
  · rw [if_pos hemp]
    have : (fetchTechmemeContent doc).length = 0 := by rw [hemp]; rfl
    simp [this]
  · rw [if_neg hemp]
    have : (fetchTechmemeContent doc).length ≠ 0 := by
      simpa [List.length_eq_zero] using hemp
    simp [this]

/-- C3: with any required configuration value absent or empty, the run
is exactly the diagnostic block followed by `process.exit(1)`: a
non-zero exit, console messages naming the missing variables, no
outbound network call and no client construction. -/
theorem c3_configGate (env : Env) (doc : HtmlDoc) (raw date : String)
    (h : truthy env.GEMINI_API_KEY = false ∨ truthy env.SLACK_BOT_TOKEN = false ∨
      truthy env.SLACK_CHANNEL_ID = false) :
    runModule env doc raw date = gateFailureTrace
    ∧ Event.processExit 1 ∈ runModule env doc raw date
    ∧ (∀ e ∈ runModule env doc raw date, isNetworkCall e = false)
    ∧ (∀ s, Event.clientInit s ∉ runModule env doc raw date)
    ∧ Event.consoleError "   - GEMINI_API_KEY" ∈ runModule env doc raw date
    ∧ Event.consoleError "   - SLACK_BOT_TOKEN" ∈ runModule env doc raw date
    ∧ Event.consoleError "   - SLACK_CHANNEL_ID" ∈ runModule env doc raw date := by
  have hok : envOk env = false := by
    unfold envOk
    rcases h with h | h | h <;> simp [h]
  have htr := runModule_gateFailure env doc raw date hok
  rw [htr]
  refine ⟨rfl, by decide, by decide, ?_, by decide, by decide, by decide⟩
  intro s hs
  simp [gateFailureTrace] at hs

/-- Witness for C3 at an environment missing the API key. -/
theorem c3_configGate_witness :
    runModule
        { GEMINI_API_KEY := none, GEMINI_MODEL := none,
          SLACK_BOT_TOKEN := some "xoxb-1", SLACK_CHANNEL_ID := some "C123" }
        { iiElements := [], strongElements := [] } "" "January 1, 2026"
      = gateFailureTrace
    ∧ Event.processExit 1 ∈ runModule
        { GEMINI_API_KEY := none, GEMINI_MODEL := none,
          SLACK_BOT_TOKEN := some "xoxb-1", SLACK_CHANNEL_ID := some "C123" }
        { iiElements := [], strongElements := [] } "" "January 1, 2026" :=
  ⟨(c3_configGate _ _ _ _ (Or.inl (by decide))).1,
   (c3_configGate _ _ _ _ (Or.inl (by decide))).2.1⟩

/-- C4: with a valid environment, the empty-result error is raised iff
both strategies return zero items; when it is raised the run exits with
status 1 and never reaches the summarization call, and when the
extractor yields at least one item the error does not occur and a
summarization call happens. -/
theorem c4_emptyResult (env : Env) (doc : HtmlDoc) (raw date : String)
    (hv : envOk env = true) :
    (emptyResultError ∈ runModule env doc raw date ↔
      (primaryItems doc = [] ∧ fallbackItems doc = []))
    ∧ (emptyResultError ∈ runModule env doc raw date →
        Event.processExit 1 ∈ runModule env doc raw date ∧
        ∀ m p, Event.geminiGenerate m p ∉ runModule env doc raw date)
    ∧ (fetchTechmemeContent doc ≠ [] →
        emptyResultError ∉ runModule env doc raw date ∧
        ∃ m p, Event.geminiGenerate m p ∈ runModule env doc raw date) := by
  rw [runModule_validated env doc raw date hv]
  by_cases hemp : fetchTechmemeContent doc = []
  · rw [if_pos hemp]
    refine ⟨?_, ?_, ?_⟩
    · simp only [← fetch_nil_iff, hemp]
      simp [emptyResultError, TECHMEME_URL]
    · intro _
      constructor
      · simp
      · intro m p hmem
        simp [emptyResultError, TECHMEME_URL] at hmem
    · intro hne
      exact absurd hemp hne
  · rw [if_neg hemp]
    refine ⟨?_, ?_, ?_⟩
    · rw [← fetch_nil_iff]
      simp only [iff_false_intro hemp, iff_false]
      intro hmem
      simp [emptyResultError, TECHMEME_URL] at hmem
    · intro hmem
      exfalso
      simp [emptyResultError, TECHMEME_URL] at hmem
    · intro _
      constructor
      · intro hmem
        simp [emptyResultError, TECHMEME_URL] at hmem
      · exact ⟨orDefault env.GEMINI_MODEL "gemini-pro-latest",
          geminiPrompt (formatContent (fetchTechmemeContent doc)), by simp⟩

/-- Witness for C4: the error is raised at an empty document and is
absent at a one-headline document. -/
theorem c4_emptyResult_witness :
    emptyResultError ∈ runModule
        { GEMINI_API_KEY := some "k", GEMINI_MODEL := none,
          SLACK_BOT_TOKEN := some "t", SLACK_CHANNEL_ID := some "c" }
        { iiElements := [], strongElements := [] } "raw" "January 1, 2026"
    ∧ emptyResultError ∉ runModule
        { GEMINI_API_KEY := some "k", GEMINI_MODEL := none,
          SLACK_BOT_TOKEN := some "t", SLACK_CHANNEL_ID := some "c" }
        { iiElements := [{ text := "A story", href := some "/a" }], strongElements := [] }
        "raw" "January 1, 2026" :=
  ⟨((c4_emptyResult _ _ _ _ (by decide)).1).mpr ⟨rfl, rfl⟩,
   ((c4_emptyResult _ _ _ _ (by decide)).2.2 (by decide)).1⟩

/-- C9: the pipeline transmits exactly one message; its text is the
fixed header with the formatted date and the newspaper emoji, a blank
line, then the summarizer's output unchanged, with Slack markdown
enabled; and `postToSlack` builds that message for every body. -/
theorem c9_publish (env : Env) (doc : HtmlDoc) (raw date : String)
    (hv : envOk env = true) (hne : fetchTechmemeContent doc ≠ []) :
    (runModule env doc raw date).filter isSlackPost
      = [Event.slackPost
          { channel := env.SLACK_CHANNEL_ID.getD ""
            text := "*Techmeme Top 10 Digest - " ++ date ++ "* :newspaper:\n\n"
              ++ summarizePost raw
            mrkdwn := true }]
    ∧ ∀ ch d body, postToSlackMessage ch d body =
        { channel := ch
          text := "*Techmeme Top 10 Digest - " ++ d ++ "* :newspaper:\n\n" ++ body
          mrkdwn := true } := by
  constructor
  · rw [runModule_validated env doc raw date hv, if_neg hne]
    simp [isSlackPost, postToSlackMessage]
  · intro ch d body
    rfl

/-- Witness for C9 at a concrete run. -/
theorem c9_publish_witness :
    (runModule
        { GEMINI_API_KEY := some "k", GEMINI_MODEL := none,
          SLACK_BOT_TOKEN := some "t", SLACK_CHANNEL_ID := some "C9" }
        { iiElements := [{ text := "A story", href := some "/a" }], strongElements := [] }
        "**Hello**" "January 1, 2026").filter isSlackPost
      = [Event.slackPost
          { channel := "C9"
            text := "*Techmeme Top 10 Digest - " ++ "January 1, 2026" ++ "* :newspaper:\n\n"
              ++ summarizePost "**Hello**"
            mrkdwn := true }] :=
  (c9_publish _ _ _ _ (by decide) (by decide)).1

end Techmeme

namespace Techmeme

/-! ## Helper induction principles for the two- and three-character
scans -/

theorem twoStepInduction {P : List Char → Prop} (h0 : P []) (h1 : ∀ c, P [c])
    (h2 : ∀ c1 c2 rest, P rest → P (c2 :: rest) → P (c1 :: c2 :: rest)) :
    ∀ l, P l := by
  have key : ∀ n (l : List Char), l.length ≤ n → P l := by
    intro n
    induction n with
    | zero =>
      intro l hl
      rw [Nat.le_zero, List.length_eq_zero] at hl
      rw [hl]; exact h0
    | succ n ih =>
      intro l hl
      match l with
      | [] => exact h0
      | [c] => exact h1 c
      | c1 :: c2 :: rest =>
        refine h2 c1 c2 rest (ih rest ?_) (ih (c2 :: rest) ?_) <;>
          simp only [List.length_cons] at hl ⊢ <;> omega
  exact fun l => key l.length l le_rfl

theorem threeStepInduction {P : List Char → Prop} (h0 : P []) (h1 : ∀ c, P [c])
    (h2 : ∀ c1 c2, P [c1, c2])
    (h3 : ∀ c1 c2 c3 rest, P rest → P (c2 :: c3 :: rest) → P (c1 :: c2 :: c3 :: rest)) :
    ∀ l, P l := by
  have key : ∀ n (l : List Char), l.length ≤ n → P l := by
    intro n
    induction n with
    | zero =>
      intro l hl
      rw [Nat.le_zero, List.length_eq_zero] at hl
      rw [hl]; exact h0
    | succ n ih =>
      intro l hl
      match l with
      | [] => exact h0
      | [c] => exact h1 c
      | [c1, c2] => exact h2 c1 c2
      | c1 :: c2 :: c3 :: rest =>
        refine h3 c1 c2 c3 rest (ih rest ?_) (ih (c2 :: c3 :: rest) ?_) <;>
          simp only [List.length_cons] at hl ⊢ <;> omega
  exact fun l => key l.length l le_rfl

/-! ## Star-run bookkeeping -/

theorem hds_cons (c : Char) (l : List Char) :
    hasDoubleStar (c :: l)
      = ((decide (c = '*') && decide (l.head? = some '*')) || hasDoubleStar l) := by
  cases l with
  | nil => simp [hasDoubleStar]
  | cons d r => simp [hasDoubleStar]

theorem hts_cons (c : Char) (l : List Char) :
    hasTripleStar (c :: l)
      = ((decide (c = '*') && decide (l.head? = some '*')
          && decide (l.tail.head? = some '*')) || hasTripleStar l) := by
  match l with
  | [] => simp [hasTripleStar]
  | [d] => simp [hasTripleStar]
  | d :: e :: r => simp [hasTripleStar, Bool.and_assoc]

theorem hds_append_right (a b : List Char) (h : hasDoubleStar (a ++ b) = false) :
    hasDoubleStar b = false := by
  induction a with
  | nil => exact h
  | cons c a' ih =>
    rw [List.cons_append, hds_cons] at h
    exact ih (by simpa using (Bool.or_eq_false_iff.mp h).2)

theorem hds_append_left (a b : List Char) (h : hasDoubleStar (a ++ b) = false) :
    hasDoubleStar a = false := by
  induction a with
  | nil => rfl
  | cons c a' ih =>
    rw [List.cons_append, hds_cons] at h
    obtain ⟨h1, h2⟩ := Bool.or_eq_false_iff.mp h
    rw [hds_cons, Bool.or_eq_false_iff]
    refine ⟨?_, ih h2⟩
    cases a' with
    | nil => simp
    | cons d r =>
      simpa using h1

theorem hds_append_false (a b : List Char) (ha : hasDoubleStar a = false)
    (hb : hasDoubleStar b = false)
    (hmid : a.getLast? ≠ some '*' ∨ b.head? ≠ some '*') :
    hasDoubleStar (a ++ b) = false := by
  induction a with
  | nil => exact hb
  | cons c a' ih =>
    rw [hds_cons] at ha
    obtain ⟨ha1, ha2⟩ := Bool.or_eq_false_iff.mp ha
    rw [List.cons_append, hds_cons, Bool.or_eq_false_iff]
    cases a' with
    | nil =>
      refine ⟨?_, by simpa using hb⟩
      rcases hmid with hmid | hmid
      · simp only [List.getLast?_singleton] at hmid
        have hc : c ≠ '*' := by simpa using hmid
        simp [hc]
      · simp [hmid]
    | cons d r =>
      have hlast : (d :: r).getLast? = (c :: d :: r).getLast? := by
        simp [List.getLast?_cons_cons]
      refine ⟨by simpa using ha1, ?_⟩
      apply ih ha2
      rcases hmid with hmid | hmid
      · exact Or.inl (hlast ▸ hmid)
      · exact Or.inr hmid

end Techmeme

namespace Techmeme

/-! ## Properties of the asterisk-collapsing passes -/

theorem cd_cons_pair (r : List Char) : collapseDouble ('*' :: '*' :: r) = '*' :: collapseDouble r := by
  rw [collapseDouble]
  simp

theorem cd_cons₂ (c1 c2 : Char) (r : List Char) (h : ¬(c1 = '*' ∧ c2 = '*')) :
    collapseDouble (c1 :: c2 :: r) = c1 :: collapseDouble (c2 :: r) := by
  rw [collapseDouble, if_neg h]

theorem cd_cons_ne (c : Char) (l : List Char) (h : c ≠ '*') :
    collapseDouble (c :: l) = c :: collapseDouble l := by
  cases l with
  | nil => rfl
  | cons d r => exact cd_cons₂ c d r (fun hc => h hc.1)

theorem cd_head_ne_star (l : List Char) (h : l.head? ≠ some '*') :
    (collapseDouble l).head? ≠ some '*' := by
  cases l with
  | nil => simpa [collapseDouble]
  | cons c r =>
    have hc : c ≠ '*' := by simpa using h
    rw [cd_cons_ne c r hc]
    simpa using hc

theorem cd_id_of_noDS (l : List Char) (h : hasDoubleStar l = false) :
    collapseDouble l = l := by
  induction l using twoStepInduction with
  | h0 => rfl
  | h1 c => rfl
  | h2 c1 c2 rest ih1 ih2 =>
    rw [hds_cons] at h
    obtain ⟨h1, h2⟩ := Bool.or_eq_false_iff.mp h
    have hpair : ¬(c1 = '*' ∧ c2 = '*') := by
      intro ⟨e1, e2⟩
      rw [e1, e2] at h1
      simp at h1
    rw [cd_cons₂ c1 c2 rest hpair, ih2 h2]

theorem cd_append_head (a b : List Char) (hb : b.head? ≠ some '*') :
    collapseDouble (a ++ b) = collapseDouble a ++ collapseDouble b := by
  induction a using twoStepInduction with
  | h0 => rfl
  | h1 c =>
    by_cases hc : c = '*'
    · subst hc
      cases b with
      | nil => rfl
      | cons d r =>
        have hd : d ≠ '*' := by simpa using hb
        rw [List.singleton_append, cd_cons₂ '*' d r (fun hp => hd hp.2)]
        rfl
    · rw [List.singleton_append, cd_cons_ne c b hc]
      rfl
  | h2 c1 c2 rest ih1 ih2 =>
    by_cases hp : c1 = '*' ∧ c2 = '*'
    · obtain ⟨e1, e2⟩ := hp
      subst e1; subst e2
      rw [List.cons_append, List.cons_append, cd_cons_pair, cd_cons_pair, ih1,
        List.cons_append]
    · rw [List.cons_append, List.cons_append, cd_cons₂ _ _ _ hp, ← List.cons_append, ih2,
        cd_cons₂ _ _ _ hp, List.cons_append]

theorem cd_append_last (a b : List Char) (ha : a.getLast? ≠ some '*') :
    collapseDouble (a ++ b) = collapseDouble a ++ collapseDouble b := by
  induction a using twoStepInduction with
  | h0 => rfl
  | h1 c =>
    have hc : c ≠ '*' := by simpa using ha
    rw [List.singleton_append, cd_cons_ne c b hc]
    rfl
  | h2 c1 c2 rest ih1 ih2 =>
    have hlast2 : (c2 :: rest).getLast? ≠ some '*' := by
      rwa [List.getLast?_cons_cons] at ha
    by_cases hp : c1 = '*' ∧ c2 = '*'
    · obtain ⟨e1, e2⟩ := hp
      subst e1; subst e2
      cases rest with
      | nil => simp at hlast2
      | cons d r =>
        have hlastr : (d :: r).getLast? ≠ some '*' := by
          rwa [List.getLast?_cons_cons] at hlast2
        rw [List.cons_append, List.cons_append, cd_cons_pair, cd_cons_pair, ih1 hlastr,
          List.cons_append]
    · rw [List.cons_append, List.cons_append, cd_cons₂ _ _ _ hp, ← List.cons_append,
        ih2 hlast2, cd_cons₂ _ _ _ hp, List.cons_append]

theorem cd_mem (l : List Char) (c : Char) (h : c ∈ collapseDouble l) : c ∈ l := by
  induction l using twoStepInduction with
  | h0 => simpa [collapseDouble] using h
  | h1 d => simpa [collapseDouble] using h
  | h2 c1 c2 rest ih1 ih2 =>
    by_cases hp : c1 = '*' ∧ c2 = '*'
    · obtain ⟨e1, e2⟩ := hp
      subst e1; subst e2
      rw [cd_cons_pair] at h
      rcases List.mem_cons.mp h with h | h
      · subst h; exact List.mem_cons_self _ _
      · exact List.mem_cons_of_mem _ (List.mem_cons_of_mem _ (ih1 h))
    · rw [cd_cons₂ _ _ _ hp] at h
      rcases List.mem_cons.mp h with h | h
      · subst h; exact List.mem_cons_self _ _
      · exact List.mem_cons_of_mem _ (ih2 h)

theorem cd_ne_nil (l : List Char) (h : l ≠ []) : collapseDouble l ≠ [] := by
  match l with
  | [] => exact absurd rfl h
  | [c] => simp [collapseDouble]
  | c1 :: c2 :: r =>
    by_cases hp : c1 = '*' ∧ c2 = '*'
    · obtain ⟨e1, e2⟩ := hp; subst e1; subst e2; rw [cd_cons_pair]; simp
    · rw [cd_cons₂ _ _ _ hp]; simp

theorem cd_length_le (l : List Char) : (collapseDouble l).length ≤ l.length := by
  induction l using twoStepInduction with
  | h0 => simp [collapseDouble]
  | h1 c => simp [collapseDouble]
  | h2 c1 c2 rest ih1 ih2 =>
    by_cases hp : c1 = '*' ∧ c2 = '*'
    · obtain ⟨e1, e2⟩ := hp; subst e1; subst e2
      rw [cd_cons_pair]
      simp only [List.length_cons]
      omega
    · rw [cd_cons₂ _ _ _ hp]
      simp only [List.length_cons] at ih2 ⊢
      omega

theorem cd_length_lt (l : List Char) (h : hasDoubleStar l = true) :
    (collapseDouble l).length < l.length := by
  induction l using twoStepInduction with
  | h0 => simp [hasDoubleStar] at h
  | h1 c => simp [hasDoubleStar] at h
  | h2 c1 c2 rest ih1 ih2 =>
    by_cases hp : c1 = '*' ∧ c2 = '*'
    · obtain ⟨e1, e2⟩ := hp; subst e1; subst e2
      rw [cd_cons_pair]
      have := cd_length_le rest
      simp only [List.length_cons]
      omega
    · have h2' : hasDoubleStar (c2 :: rest) = true := by
        rw [hds_cons] at h
        rcases Bool.or_eq_true_iff.mp h with h | h
        · exfalso
          obtain ⟨e1, e2⟩ := Bool.and_eq_true_iff.mp h
          exact hp ⟨by simpa using e1, by simpa using e2⟩
        · exact h
      rw [cd_cons₂ _ _ _ hp]
      have := ih2 h2'
      simp only [List.length_cons] at this ⊢
      omega

theorem hts_pair_false (rest : List Char)
    (h : hasTripleStar ('*' :: '*' :: rest) = false) :
    rest.head? ≠ some '*' ∧ hasTripleStar rest = false := by
  cases rest with
  | nil => exact ⟨by simp, rfl⟩
  | cons d r =>
    have h' : (decide (d = '*') || hasTripleStar ('*' :: d :: r)) = false := by
      simpa [hasTripleStar] using h
    obtain ⟨h1, h2⟩ := Bool.or_eq_false_iff.mp h'
    refine ⟨by simpa using h1, ?_⟩
    rw [hts_cons] at h2
    exact (Bool.or_eq_false_iff.mp h2).2

theorem cdNoDouble (l : List Char) (h : hasTripleStar l = false) :
    hasDoubleStar (collapseDouble l) = false := by
  induction l using twoStepInduction with
  | h0 => rfl
  | h1 c => rfl
  | h2 c1 c2 rest ih1 ih2 =>
    by_cases hp : c1 = '*' ∧ c2 = '*'
    · obtain ⟨e1, e2⟩ := hp; subst e1; subst e2
      obtain ⟨hhead, hrest⟩ := hts_pair_false rest h
      rw [cd_cons_pair, hds_cons, Bool.or_eq_false_iff]
      exact ⟨by simp [cd_head_ne_star rest hhead], ih1 hrest⟩
    · have hrest2 : hasTripleStar (c2 :: rest) = false := by
        rw [hts_cons] at h
        exact (Bool.or_eq_false_iff.mp h).2
      rw [cd_cons₂ _ _ _ hp, hds_cons, Bool.or_eq_false_iff]
      refine ⟨?_, ih2 hrest2⟩
      by_cases hc1 : c1 = '*'
      · have hc2 : c2 ≠ '*' := fun hc2 => hp ⟨hc1, hc2⟩
        have hne : (collapseDouble (c2 :: rest)).head? ≠ some '*' :=
          cd_head_ne_star _ (by simpa using hc2)
        simp [hne]
      · simp [hc1]

theorem ct_cons_fst (c : Char) (l : List Char) (h : c ≠ '*') :
    collapseTriple (c :: l) = c :: collapseTriple l := by
  match l with
  | [] => rfl
  | [d] => rfl
  | d :: e :: r =>
    rw [collapseTriple, if_neg (fun hp => h hp.1)]

theorem ct_cons_snd (x b0 : Char) (r : List Char) (h : b0 ≠ '*') :
    collapseTriple (x :: b0 :: r) = x :: collapseTriple (b0 :: r) := by
  match r with
  | [] => rfl
  | e :: r' =>
    rw [collapseTriple, if_neg (fun hp => h hp.2.1)]

theorem ct_cons_triple (r : List Char) :
    collapseTriple ('*' :: '*' :: '*' :: r) = '*' :: collapseTriple r := by
  rw [collapseTriple]
  simp

theorem ct_id_of_noDS (l : List Char) (h : hasDoubleStar l = false) :
    collapseTriple l = l := by
  induction l using threeStepInduction with
  | h0 => rfl
  | h1 c => rfl
  | h2 c1 c2 => rfl
  | h3 c1 c2 c3 rest ih1 ih2 =>
    rw [hds_cons] at h
    obtain ⟨h1, h2⟩ := Bool.or_eq_false_iff.mp h
    have hpair : ¬(c1 = '*' ∧ c2 = '*' ∧ c3 = '*') := by
      intro ⟨e1, e2, _⟩
      rw [e1, e2] at h1
      simp at h1
    rw [collapseTriple, if_neg hpair, ih2 h2]

theorem ct_mem (l : List Char) (c : Char) (h : c ∈ collapseTriple l) : c ∈ l := by
  induction l using threeStepInduction with
  | h0 => simpa [collapseTriple] using h
  | h1 d => simpa [collapseTriple] using h
  | h2 d e => simpa [collapseTriple] using h
  | h3 c1 c2 c3 rest ih1 ih2 =>
    by_cases hp : c1 = '*' ∧ c2 = '*' ∧ c3 = '*'
    · obtain ⟨e1, e2, e3⟩ := hp; subst e1; subst e2; subst e3
      rw [ct_cons_triple] at h
      rcases List.mem_cons.mp h with h | h
      · subst h; exact List.mem_cons_self _ _
      · exact List.mem_cons_of_mem _ (List.mem_cons_of_mem _ (List.mem_cons_of_mem _ (ih1 h)))
    · rw [collapseTriple, if_neg hp] at h
      rcases List.mem_cons.mp h with h | h
      · subst h; exact List.mem_cons_self _ _
      · exact List.mem_cons_of_mem _ (ih2 h)

theorem ct_ne_nil (l : List Char) (h : l ≠ []) : collapseTriple l ≠ [] := by
  match l with
  | [] => exact absurd rfl h
  | [c] => simp [collapseTriple]
  | [c1, c2] => simp [collapseTriple]
  | c1 :: c2 :: c3 :: r =>
    by_cases hp : c1 = '*' ∧ c2 = '*' ∧ c3 = '*'
    · obtain ⟨e1, e2, e3⟩ := hp; subst e1; subst e2; subst e3
      rw [ct_cons_triple]; simp
    · rw [collapseTriple, if_neg hp]; simp

theorem ct_length_le (l : List Char) : (collapseTriple l).length ≤ l.length := by
  induction l using threeStepInduction with
  | h0 => simp [collapseTriple]
  | h1 c => simp [collapseTriple]
  | h2 c1 c2 => simp [collapseTriple]
  | h3 c1 c2 c3 rest ih1 ih2 =>
    by_cases hp : c1 = '*' ∧ c2 = '*' ∧ c3 = '*'
    · obtain ⟨e1, e2, e3⟩ := hp; subst e1; subst e2; subst e3
      rw [ct_cons_triple]
      simp only [List.length_cons]
      omega
    · rw [collapseTriple, if_neg hp]
      simp only [List.length_cons] at ih2 ⊢
      omega

theorem ct_cons_thd (x y b0 : Char) (r : List Char) (h : b0 ≠ '*') :
    collapseTriple (x :: y :: b0 :: r) = x :: collapseTriple (y :: b0 :: r) := by
  rw [collapseTriple, if_neg (fun hp => h hp.2.2)]

theorem ct_append_head (a b : List Char) (hb : b.head? ≠ some '*') :
    collapseTriple (a ++ b) = collapseTriple a ++ collapseTriple b := by
  induction a using threeStepInduction with
  | h0 => rfl
  | h1 c =>
    by_cases hc : c = '*'
    · subst hc
      cases b with
      | nil => rfl
      | cons d r =>
        have hd : d ≠ '*' := by simpa using hb
        rw [List.singleton_append, ct_cons_snd '*' d r hd]
        rfl
    · rw [List.singleton_append, ct_cons_fst c b hc]
      rfl
  | h2 c1 c2 =>
    cases b with
    | nil => simp [collapseTriple]
    | cons d r =>
      have hd : d ≠ '*' := by simpa using hb
      show collapseTriple (c1 :: c2 :: d :: r) = [c1, c2] ++ collapseTriple (d :: r)
      rw [ct_cons_thd c1 c2 d r hd, ct_cons_snd c2 d r hd]
      rfl
  | h3 c1 c2 c3 rest ih1 ih2 =>
    by_cases hp : c1 = '*' ∧ c2 = '*' ∧ c3 = '*'
    · obtain ⟨e1, e2, e3⟩ := hp; subst e1; subst e2; subst e3
      show collapseTriple ('*' :: '*' :: '*' :: (rest ++ b)) = _
      rw [ct_cons_triple, ct_cons_triple, ih1, List.cons_append]
    · show collapseTriple (c1 :: c2 :: c3 :: (rest ++ b)) = _
      rw [collapseTriple, if_neg hp]
      conv_rhs => rw [collapseTriple, if_neg hp]
      rw [show c2 :: c3 :: (rest ++ b) = (c2 :: c3 :: rest) ++ b by simp, ih2,
        List.cons_append]

theorem ct_append_last (a b : List Char) (ha : a.getLast? ≠ some '*') :
    collapseTriple (a ++ b) = collapseTriple a ++ collapseTriple b := by
  induction a using threeStepInduction with
  | h0 => rfl
  | h1 c =>
    have hc : c ≠ '*' := by simpa using ha
    rw [List.singleton_append, ct_cons_fst c b hc]
    rfl
  | h2 c1 c2 =>
    have hc2 : c2 ≠ '*' := by
      rw [List.getLast?_cons_cons, List.getLast?_singleton] at ha
      simpa using ha
    show collapseTriple (c1 :: c2 :: b) = [c1, c2] ++ collapseTriple b
    rw [ct_cons_snd c1 c2 b hc2, ct_cons_fst c2 b hc2]
    rfl
  | h3 c1 c2 c3 rest ih1 ih2 =>
    have ha2 : (c2 :: c3 :: rest).getLast? ≠ some '*' := by
      rwa [List.getLast?_cons_cons] at ha
    by_cases hp : c1 = '*' ∧ c2 = '*' ∧ c3 = '*'
    · obtain ⟨e1, e2, e3⟩ := hp; subst e1; subst e2; subst e3
      cases rest with
      | nil =>
        rw [List.getLast?_cons_cons, List.getLast?_singleton] at ha2
        simp at ha2
      | cons d r =>
        have har : (d :: r).getLast? ≠ some '*' := by
          rw [List.getLast?_cons_cons, List.getLast?_cons_cons] at ha2
          exact ha2
        show collapseTriple ('*' :: '*' :: '*' :: ((d :: r) ++ b)) = _
        rw [ct_cons_triple, ct_cons_triple, ih1 har, List.cons_append]
    · show collapseTriple (c1 :: c2 :: c3 :: (rest ++ b)) = _
      rw [collapseTriple, if_neg hp]
      conv_rhs => rw [collapseTriple, if_neg hp]
      rw [show c2 :: c3 :: (rest ++ b) = (c2 :: c3 :: rest) ++ b by simp, ih2 ha2,
        List.cons_append]

end Techmeme

namespace Techmeme

/-! ## Properties of the URL-rewriting pass -/

theorem urlStop_star : urlStop '*' = false := by decide

theorem takeUrlBody_split (l : List Char) :
    (takeUrlBody l).1 ++ (takeUrlBody l).2 = l
    ∧ (∀ c ∈ (takeUrlBody l).1, urlStop c = false) := by
  induction l with
  | nil => exact ⟨rfl, by intro c hc; exact absurd hc (by simp [takeUrlBody])⟩
  | cons c r ih =>
    by_cases hc : urlStop c = true
    · rw [takeUrlBody, if_pos hc]
      exact ⟨rfl, by intro d hd; exact absurd hd (by simp)⟩
    · rw [takeUrlBody, if_neg hc]
      refine ⟨?_, ?_⟩
      · show c :: ((takeUrlBody r).1 ++ (takeUrlBody r).2) = c :: r
        rw [ih.1]
      · show ∀ d ∈ c :: (takeUrlBody r).1, urlStop d = false
        intro d hd
        rcases List.mem_cons.mp hd with h | h
        · subst h; simpa using hc
        · exact ih.2 d h

theorem takeUrlBody_append (body post : List Char)
    (hbs : ∀ c ∈ body, urlStop c = false)
    (hp : ∀ c, post.head? = some c → urlStop c = true) :
    takeUrlBody (body ++ post) = (body, post) := by
  induction body with
  | nil =>
    cases post with
    | nil => rfl
    | cons c r =>
      rw [List.nil_append, takeUrlBody, if_pos (hp c rfl)]
  | cons c b ih =>
    have hc : urlStop c = false := hbs c (List.mem_cons_self c b)
    rw [List.cons_append, takeUrlBody, if_neg (by simp [hc])]
    rw [ih (fun d hd => hbs d (List.mem_cons_of_mem c hd))]

theorem matchUrlAt_spec (l u r : List Char) (h : matchUrlAt l = some (u, r)) :
    l = u ++ r
    ∧ ∃ s body, (s = "http://".data ∨ s = "https://".data) ∧ u = s ++ body
      ∧ body ≠ [] ∧ (∀ c ∈ body, urlStop c = false) := by
  unfold matchUrlAt at h
  by_cases h8 : l.take 8 = "https://".data
  · rw [if_pos h8] at h
    rcases htb : takeUrlBody (l.drop 8) with ⟨b, r2⟩
    rw [htb] at h
    cases b with
    | nil => simp at h
    | cons c b' =>
      replace h : some (("https://".data ++ (c :: b'), r2) : List Char × List Char)
          = some (u, r) := h
      have hur := Option.some.inj h
      have hu : u = "https://".data ++ (c :: b') := (congrArg Prod.fst hur).symm
      have hr : r = r2 := (congrArg Prod.snd hur).symm
      subst hu; subst hr
      have hsplit := takeUrlBody_split (l.drop 8)
      rw [htb] at hsplit
      refine ⟨?_, "https://".data, c :: b', Or.inr rfl, rfl, by simp, hsplit.2⟩
      conv_lhs => rw [← List.take_append_drop 8 l]
      rw [h8, ← hsplit.1]
      simp
  · rw [if_neg h8] at h
    by_cases h7 : l.take 7 = "http://".data
    · rw [if_pos h7] at h
      rcases htb : takeUrlBody (l.drop 7) with ⟨b, r2⟩
      rw [htb] at h
      cases b with
      | nil => simp at h
      | cons c b' =>
        replace h : some (("http://".data ++ (c :: b'), r2) : List Char × List Char)
            = some (u, r) := h
        have hur := Option.some.inj h
        have hu : u = "http://".data ++ (c :: b') := (congrArg Prod.fst hur).symm
        have hr : r = r2 := (congrArg Prod.snd hur).symm
        subst hu; subst hr
        have hsplit := takeUrlBody_split (l.drop 7)
        rw [htb] at hsplit
        refine ⟨?_, "http://".data, c :: b', Or.inl rfl, rfl, by simp, hsplit.2⟩
        conv_lhs => rw [← List.take_append_drop 7 l]
        rw [h7, ← hsplit.1]
        simp
    · rw [if_neg h7] at h
      simp at h

theorem matchUrlAt_length (l u r : List Char) (h : matchUrlAt l = some (u, r)) :
    r.length < l.length ∧ l = u ++ r := by
  obtain ⟨heq, s, body, hs, hu, hb, -⟩ := matchUrlAt_spec l u r h
  refine ⟨?_, heq⟩
  have hlen : l.length = u.length + r.length := by rw [heq]; simp
  have hupos : 0 < u.length := by
    rw [hu]
    rcases hs with hs | hs <;> subst hs <;> simp
  omega

theorem matchUrlAt_scheme (s body post : List Char)
    (hs : s = "http://".data ∨ s = "https://".data)
    (hb : body ≠ []) (hbs : ∀ c ∈ body, urlStop c = false)
    (hp : ∀ c, post.head? = some c → urlStop c = true) :
    matchUrlAt (s ++ body ++ post) = some (s ++ body, post) := by
  have htb : takeUrlBody (body ++ post) = (body, post) := takeUrlBody_append body post hbs hp
  rcases hs with hs | hs <;> subst hs
  · have h8 : ¬("http://".data ++ body ++ post).take 8 = "https://".data := by
      intro hcontra
      have h4 : (("http://".data ++ body ++ post).take 8).get? 4 = some ':' := by
        rw [List.get?_take (by omega)]
        rw [List.append_assoc]
        rw [List.get?_append (by simp)]
        rfl
      rw [hcontra] at h4
      simp at h4
    have h7 : ("http://".data ++ body ++ post).take 7 = "http://".data := by
      rw [List.append_assoc, List.take_append_of_le_length (by simp)]
      decide
    unfold matchUrlAt
    rw [if_neg h8, if_pos h7]
    have hdrop : ("http://".data ++ body ++ post).drop 7 = body ++ post := by
      rw [List.append_assoc, List.drop_append_of_le_length (by simp)]
      simp
    rw [hdrop, htb]
    cases body with
    | nil => exact absurd rfl hb
    | cons c b' => rfl
  · have h8 : ("https://".data ++ body ++ post).take 8 = "https://".data := by
      rw [List.append_assoc, List.take_append_of_le_length (by simp)]
      decide
    unfold matchUrlAt
    rw [if_pos h8]
    have hdrop : ("https://".data ++ body ++ post).drop 8 = body ++ post := by
      rw [List.append_assoc, List.drop_append_of_le_length (by simp)]
      simp
    rw [hdrop, htb]
    cases body with
    | nil => exact absurd rfl hb
    | cons c b' => rfl

end Techmeme

namespace Techmeme

theorem replaceUrlsAux_congr : ∀ (f1 f2 : Nat) (l : List Char),
    l.length ≤ f1 → l.length ≤ f2 → replaceUrlsAux f1 l = replaceUrlsAux f2 l := by
  intro f1
  induction f1 with
  | zero =>
    intro f2 l h1 h2
    rw [Nat.le_zero, List.length_eq_zero] at h1
    subst h1
    cases f2 <;> rfl
  | succ f ih =>
    intro f2 l h1 h2
    cases l with
    | nil => cases f2 <;> rfl
    | cons c rest =>
      cases f2 with
      | zero => simp at h2
      | succ g =>
        show (match matchUrlAt (c :: rest) with
          | some (url, rest2) =>
            '<' :: (url ++ "|read more>".data ++ replaceUrlsAux f rest2)
          | none => c :: replaceUrlsAux f rest) =
          (match matchUrlAt (c :: rest) with
          | some (url, rest2) =>
            '<' :: (url ++ "|read more>".data ++ replaceUrlsAux g rest2)
          | none => c :: replaceUrlsAux g rest)
        cases hm : matchUrlAt (c :: rest) with
        | none =>
          simp only []
          rw [ih g rest (by simp at h1 ⊢; omega) (by simp at h2 ⊢; omega)]
        | some p =>
          rcases p with ⟨u, r2⟩
          simp only []
          have hlen := (matchUrlAt_length _ _ _ hm).1
          rw [ih g r2 (by simp at h1 hlen ⊢; omega) (by simp at h2 hlen ⊢; omega)]

theorem replaceUrls_nil : replaceUrls [] = [] := rfl

theorem replaceUrls_cons_none (c : Char) (rest : List Char)
    (h : matchUrlAt (c :: rest) = none) :
    replaceUrls (c :: rest) = c :: replaceUrls rest := by
  show replaceUrlsAux (c :: rest).length (c :: rest) = _
  rw [List.length_cons]
  show (match matchUrlAt (c :: rest) with
    | some (url, rest2) =>
      '<' :: (url ++ "|read more>".data ++ replaceUrlsAux rest.length rest2)
    | none => c :: replaceUrlsAux rest.length rest) = _
  rw [h]
  rfl

theorem replaceUrls_of_match (l u r2 : List Char) (h : matchUrlAt l = some (u, r2)) :
    replaceUrls l = '<' :: (u ++ "|read more>".data ++ replaceUrls r2) := by
  obtain ⟨hlen, heq⟩ := matchUrlAt_length _ _ _ h
  cases l with
  | nil =>
    rw [show matchUrlAt [] = none from by decide] at h
    simp at h
  | cons c rest =>
    show replaceUrlsAux (c :: rest).length (c :: rest) = _
    rw [List.length_cons]
    show (match matchUrlAt (c :: rest) with
      | some (url, rest2) =>
        '<' :: (url ++ "|read more>".data ++ replaceUrlsAux rest.length rest2)
      | none => c :: replaceUrlsAux rest.length rest) = _
    rw [h]
    simp only []
    rw [replaceUrlsAux_congr rest.length r2.length r2 (by simp at hlen ⊢; omega) le_rfl]
    rfl

theorem replaceUrls_append_nomatch (a b : List Char)
    (h : ∀ n, n < a.length → matchUrlAt ((a ++ b).drop n) = none) :
    replaceUrls (a ++ b) = a ++ replaceUrls b := by
  induction a with
  | nil => simp
  | cons c a' ih =>
    have h0 : matchUrlAt (c :: (a' ++ b)) = none := by
      have h' := h 0 (by simp)
      simpa using h'
    rw [List.cons_append, replaceUrls_cons_none _ _ h0]
    rw [ih (fun n hn => by
      have h' := h (n + 1) (by simp only [List.length_cons]; omega)
      simpa using h')]
    rw [List.cons_append]

theorem replaceUrls_head (l : List Char) :
    (replaceUrls l).head? = some '<' ∨ (replaceUrls l).head? = l.head? := by
  cases l with
  | nil => exact Or.inr rfl
  | cons c rest =>
    cases hm : matchUrlAt (c :: rest) with
    | none =>
      rw [replaceUrls_cons_none c rest hm]
      exact Or.inr rfl
    | some p =>
      rcases p with ⟨u, r2⟩
      rw [replaceUrls_of_match _ _ _ hm]
      exact Or.inl rfl

theorem hds_replaceUrls (l : List Char) (hl : hasDoubleStar l = false) :
    hasDoubleStar (replaceUrls l) = false := by
  have key : ∀ n (l : List Char), l.length ≤ n → hasDoubleStar l = false →
      hasDoubleStar (replaceUrls l) = false := by
    intro n
    induction n with
    | zero =>
      intro l hlen h
      rw [Nat.le_zero, List.length_eq_zero] at hlen
      subst hlen
      exact h
    | succ n ih =>
      intro l hlen h
      cases l with
      | nil => exact h
      | cons c rest =>
        cases hm : matchUrlAt (c :: rest) with
        | none =>
          rw [replaceUrls_cons_none c rest hm]
          have hrest : hasDoubleStar rest = false := by
            rw [hds_cons] at h
            exact (Bool.or_eq_false_iff.mp h).2
          have hRU : hasDoubleStar (replaceUrls rest) = false :=
            ih rest (by simp at hlen ⊢; omega) hrest
          rw [hds_cons, Bool.or_eq_false_iff]
          refine ⟨?_, hRU⟩
          by_cases hc : c = '*'
          · subst hc
            have hresthead : rest.head? ≠ some '*' := by
              rw [hds_cons] at h
              have h1 := (Bool.or_eq_false_iff.mp h).1
              intro hcon
              rw [hcon] at h1
              simp at h1
            rcases replaceUrls_head rest with hh | hh
            · simp [hh]
            · rw [hh]
              simp [hresthead]
          · simp [hc]
        | some p =>
          rcases p with ⟨u, r2⟩
          rw [replaceUrls_of_match _ _ _ hm]
          obtain ⟨hlen2, heq⟩ := matchUrlAt_length _ _ _ hm
          have hu : hasDoubleStar u = false := hds_append_left u r2 (heq ▸ h)
          have hr2 : hasDoubleStar r2 = false := hds_append_right u r2 (heq ▸ h)
          have hRU : hasDoubleStar (replaceUrls r2) = false :=
            ih r2 (by simp at hlen hlen2 ⊢; omega) hr2
          have hB : hasDoubleStar ("|read more>".data ++ replaceUrls r2) = false := by
            apply hds_append_false _ _ (by decide) hRU
            left
            decide
          have hC : hasDoubleStar (u ++ ("|read more>".data ++ replaceUrls r2)) = false := by
            apply hds_append_false _ _ hu hB
            right
            rw [show "|read more>".data = '|' :: "read more>".data from rfl, List.cons_append]
            simp
          rw [show u ++ "|read more>".data ++ replaceUrls r2
              = u ++ ("|read more>".data ++ replaceUrls r2) from by simp, hds_cons,
            Bool.or_eq_false_iff]
          exact ⟨by simp, hC⟩
  exact key l.length l le_rfl hl

end Techmeme

namespace Techmeme

/-! ## Claims about the summarizer's post-processing -/

/-- C1 (counterexample): `***` contains two consecutive emphasis
delimiters, but post-processing returns `**`: the first replace turns
`***` into `**` and the second pass no longer finds a triple, so a
consecutive pair remains (and the run was not collapsed to one). -/
theorem c1_counterexample :
    hasDoubleStar ("***" : String).data = true
    ∧ summarizePost "***" = "**"
    ∧ hasDoubleStar (summarizePost "***").data = true :=
  ⟨by decide, by decide, by decide⟩

/-- C1 (amended): when every maximal run of consecutive emphasis
delimiters in the raw output has length at most two (no three
consecutive asterisks), post-processing leaves no consecutive pair;
runs of length three or more can survive as a pair (`***` → `**`). -/
theorem c1_amended (raw : String) (h : hasTripleStar raw.data = false) :
    hasDoubleStar (summarizePost raw).data = false := by
  show hasDoubleStar (postProcess raw.data) = false
  unfold postProcess
  have h1 : hasDoubleStar (collapseDouble raw.data) = false := cdNoDouble _ h
  rw [ct_id_of_noDS _ h1]
  exact hds_replaceUrls _ h1

/-- Witness for C1 (amended) on a text with two double-delimiter runs
and a URL. -/
theorem c1_amended_witness :
    hasTripleStar ("**Title** info http://example.com/story" : String).data = false
    ∧ hasDoubleStar (summarizePost "**Title** info http://example.com/story").data = false :=
  ⟨by decide, c1_amended _ (by decide)⟩

/-- The two collapsing passes distribute over the
`pre ++ scheme ++ body ++ post` decomposition of a text around a URL
token: the scheme is left intact and no collapse crosses the
boundaries. -/
theorem collapse_url_decomp (pre s body post : List Char)
    (hs : s = "http://".data ∨ s = "https://".data)
    (hp : ∀ c, post.head? = some c → urlStop c = true) :
    collapseTriple (collapseDouble (pre ++ (s ++ (body ++ post))))
      = collapseTriple (collapseDouble pre)
        ++ (s ++ (collapseTriple (collapseDouble body)
          ++ collapseTriple (collapseDouble post))) := by
  have hsh : ∀ X : List Char, (s ++ X).head? = some 'h' := by
    rcases hs with hs | hs <;> subst hs <;> intro X <;> rfl
  have hslast : s.getLast? = some '/' := by
    rcases hs with hs | hs <;> subst hs <;> decide
  have hsnoDS : hasDoubleStar s = false := by
    rcases hs with hs | hs <;> subst hs <;> decide
  have hpost_ne : post.head? ≠ some '*' := by
    cases post with
    | nil => simp
    | cons d r =>
      intro hcon
      have hd := hp d rfl
      have : d = '*' := by simpa using hcon
      rw [this, urlStop_star] at hd
      exact Bool.noConfusion hd
  have h1 : collapseDouble (pre ++ (s ++ (body ++ post)))
      = collapseDouble pre ++ collapseDouble (s ++ (body ++ post)) :=
    cd_append_head _ _ (by rw [hsh]; simp)
  have h2 : collapseDouble (s ++ (body ++ post))
      = collapseDouble s ++ collapseDouble (body ++ post) :=
    cd_append_last _ _ (by rw [hslast]; simp)
  have h3 : collapseDouble (body ++ post)
      = collapseDouble body ++ collapseDouble post :=
    cd_append_head _ _ hpost_ne
  have hcds : collapseDouble s = s := cd_id_of_noDS s hsnoDS
  rw [h1, h2, h3, hcds]
  have h4 : collapseTriple (collapseDouble pre
        ++ (s ++ (collapseDouble body ++ collapseDouble post)))
      = collapseTriple (collapseDouble pre)
        ++ collapseTriple (s ++ (collapseDouble body ++ collapseDouble post)) :=
    ct_append_head _ _ (by rw [hsh]; simp)
  have h5 : collapseTriple (s ++ (collapseDouble body ++ collapseDouble post))
      = collapseTriple s ++ collapseTriple (collapseDouble body ++ collapseDouble post) :=
    ct_append_last _ _ (by rw [hslast]; simp)
  have h6 : collapseTriple (collapseDouble body ++ collapseDouble post)
      = collapseTriple (collapseDouble body) ++ collapseTriple (collapseDouble post) :=
    ct_append_head _ _ (cd_head_ne_star post hpost_ne)
  have hcts : collapseTriple s = s := ct_id_of_noDS s hsnoDS
  rw [h4, h5, h6, hcts]

/-- General shape of the post-processing on a text containing one URL
token: the collapsed prefix is copied, the token (with its body
collapsed) is wrapped into the anchor form, and the rewriting continues
on the collapsed suffix. -/
theorem postProcess_wraps (pre s body post : List Char)
    (hs : s = "http://".data ∨ s = "https://".data)
    (hb : body ≠ []) (hbs : ∀ c ∈ body, urlStop c = false)
    (hp : ∀ c, post.head? = some c → urlStop c = true)
    (hpre : ∀ n, n < (collapseTriple (collapseDouble pre)).length →
      matchUrlAt ((collapseTriple (collapseDouble pre)
        ++ (s ++ (collapseTriple (collapseDouble body)
          ++ collapseTriple (collapseDouble post)))).drop n) = none) :
    postProcess (pre ++ (s ++ (body ++ post)))
      = collapseTriple (collapseDouble pre)
        ++ ('<' :: (s ++ collapseTriple (collapseDouble body)
            ++ "|read more>".data
            ++ replaceUrls (collapseTriple (collapseDouble post)))) := by
  unfold postProcess
  rw [collapse_url_decomp pre s body post hs hp]
  have hBne : collapseTriple (collapseDouble body) ≠ [] := ct_ne_nil _ (cd_ne_nil _ hb)
  have hBstop : ∀ c ∈ collapseTriple (collapseDouble body), urlStop c = false := fun c hc =>
    hbs c (cd_mem _ _ (ct_mem _ _ hc))
  have hQhead : ∀ c, (collapseTriple (collapseDouble post)).head? = some c →
      urlStop c = true := by
    cases post with
    | nil =>
      intro c hc
      exact absurd hc (by simp [collapseDouble, collapseTriple])
    | cons d r =>
      intro c hc
      have hd := hp d rfl
      have hdne : d ≠ '*' := by
        intro he
        rw [he, urlStop_star] at hd
        exact Bool.noConfusion hd
      rw [cd_cons_ne d r hdne, ct_cons_fst d _ hdne] at hc
      have : c = d := by simpa using hc.symm
      rw [this]
      exact hd
  have hmatch : matchUrlAt (s ++ (collapseTriple (collapseDouble body)
        ++ collapseTriple (collapseDouble post)))
      = some (s ++ collapseTriple (collapseDouble body),
          collapseTriple (collapseDouble post)) := by
    have hm := matchUrlAt_scheme s (collapseTriple (collapseDouble body))
      (collapseTriple (collapseDouble post)) hs hBne hBstop hQhead
    rw [List.append_assoc] at hm
    exact hm
  rw [replaceUrls_append_nomatch _ _ hpre, replaceUrls_of_match _ _ _ hmatch]

/-- C5 (counterexample): the URL token `http://a**b` is not wrapped
exactly: the collapsing passes run first, so the output anchors
`http://a*b` and the exact URL the model emitted occurs nowhere in the
output. -/
theorem c5_counterexample :
    summarizePost "go http://a**b now" = "go <http://a*b|read more> now"
    ∧ containsSeg ("go http://a**b now" : String).data ("http://a**b" : String).data = true
    ∧ containsSeg (summarizePost "go http://a**b now").data
        ("http://a**b" : String).data = false :=
  ⟨by decide, by decide, by decide⟩

/-- C5 (amended): a bare URL token whose characters contain no
consecutive emphasis delimiters is replaced by `<URL|read more>`
wrapping that exact URL (the general case wraps the delimiter-collapsed
token, see the corresponding implicit-order result); the prefix is
copied (collapsed) and rewriting continues behind the token. -/
theorem c5_amended (pre s body post : List Char)
    (hs : s = "http://".data ∨ s = "https://".data)
    (hb : body ≠ []) (hbs : ∀ c ∈ body, urlStop c = false)
    (hbd : hasDoubleStar body = false)
    (hp : ∀ c, post.head? = some c → urlStop c = true)
    (hpre : ∀ n, n < (collapseTriple (collapseDouble pre)).length →
      matchUrlAt ((collapseTriple (collapseDouble pre)
        ++ (s ++ (body ++ collapseTriple (collapseDouble post)))).drop n) = none) :
    postProcess (pre ++ (s ++ (body ++ post)))
      = collapseTriple (collapseDouble pre)
        ++ ('<' :: (s ++ body ++ "|read more>".data
            ++ replaceUrls (collapseTriple (collapseDouble post)))) := by
  have hbody : collapseTriple (collapseDouble body) = body := by
    rw [cd_id_of_noDS _ hbd, ct_id_of_noDS _ hbd]
  refine (postProcess_wraps pre s body post hs hb hbs hp ?_).trans ?_
  · rw [hbody]
    exact hpre
  · rw [hbody]

/-- Witness for C5 (amended) at a concrete prompt-like text. -/
theorem c5_amended_witness :
    postProcess (("see " : String).data ++ (("http://" : String).data
        ++ (("a.com/x" : String).data ++ (" done" : String).data)))
      = collapseTriple (collapseDouble ("see " : String).data)
        ++ ('<' :: (("http://" : String).data ++ ("a.com/x" : String).data
            ++ "|read more>".data
            ++ replaceUrls (collapseTriple (collapseDouble (" done" : String).data)))) :=
  c5_amended _ _ _ _ (Or.inl rfl) (by decide) (by decide) (by decide)
    (by intro c hc; simp at hc; subst hc; decide) (by decide)

/-- C10: the collapsing passes run on the whole raw text before URL
rewriting, so a URL token containing consecutive emphasis delimiters is
wrapped in its collapsed form, which differs from the exact URL the
model emitted. -/
theorem c10_collapsedUrl (pre s body post : List Char)
    (hs : s = "http://".data ∨ s = "https://".data)
    (hb : body ≠ []) (hbs : ∀ c ∈ body, urlStop c = false)
    (hstar : hasDoubleStar body = true)
    (hp : ∀ c, post.head? = some c → urlStop c = true)
    (hpre : ∀ n, n < (collapseTriple (collapseDouble pre)).length →
      matchUrlAt ((collapseTriple (collapseDouble pre)
        ++ (s ++ (collapseTriple (collapseDouble body)
          ++ collapseTriple (collapseDouble post)))).drop n) = none) :
    postProcess (pre ++ (s ++ (body ++ post)))
      = collapseTriple (collapseDouble pre)
        ++ ('<' :: (s ++ collapseTriple (collapseDouble body)
            ++ "|read more>".data
            ++ replaceUrls (collapseTriple (collapseDouble post))))
    ∧ collapseTriple (collapseDouble body) ≠ body := by
  refine ⟨postProcess_wraps pre s body post hs hb hbs hp hpre, ?_⟩
  intro hcon
  have h1 : (collapseDouble body).length < body.length := cd_length_lt body hstar
  have h2 : (collapseTriple (collapseDouble body)).length
      ≤ (collapseDouble body).length := ct_length_le _
  have h3 := congrArg List.length hcon
  omega

/-- Witness for C10 at a URL token containing `**`. -/
theorem c10_collapsedUrl_witness :
    (postProcess (("go " : String).data ++ (("http://" : String).data
        ++ (("x**y" : String).data ++ (" end" : String).data)))
      = collapseTriple (collapseDouble ("go " : String).data)
        ++ ('<' :: (("http://" : String).data
            ++ collapseTriple (collapseDouble ("x**y" : String).data)
            ++ "|read more>".data
            ++ replaceUrls (collapseTriple (collapseDouble (" end" : String).data)))))
    ∧ collapseTriple (collapseDouble ("x**y" : String).data) ≠ ("x**y" : String).data :=
  c10_collapsedUrl _ _ _ _ (Or.inl rfl) (by decide) (by decide) (by decide)
    (by intro c hc; simp at hc; subst hc; decide) (by decide)

end Techmeme
